import Mathlib

/-!
Verification development for the Telegram assistant bot (src/index.js).

The file shallowly embeds the Context & Generation Dispatch Engine:
the session data model, the context composer (buildContents), the
day-grouping and memory-consolidation algorithm (groupMessagesByDay,
generateSummary), the retry/fallback dispatch
(generateResponseWithRetry, generateGeminiResponse,
generateResponseWithBackup), the settings mutations, the delete-last-N
operation, and the empty-reply fallback of the message handlers.

Modelling conventions:
- JavaScript strings are Lean `String`; the JS string methods used by
  the source (`split(',')[0]`, `split('.')`, `Number`, `trim`) are
  re-implemented structurally on `List Char` so that all definitions
  are kernel-computable.
- The ambient current date (`new Date()`) is passed explicitly: as a
  `DateTriple` where the source compares day/month/year components
  (isMessageFromToday), and as the locale date string `today` where the
  source compares date strings (generateSummary).
- Provider adapters are modelled as oracles: a function from the
  attempt number to the outcome for the retry loop, and a function from
  the composed contents to the outcome for the summarization path (this
  oracle absorbs the external `sanitizeHtml` collaborator, which the
  source applies to the returned text before storing it).
- `async`/`await`, logging, Telegram I/O and file persistence are
  outside the embedded core; exceptions are modelled with `Except`.
-/

namespace TelegramAI

/-! ## JS string primitives used by the source -/

/-- Models `s.split(',')[0]`: the characters before the first comma
(the whole string when there is no comma). -/
def takeUntilComma : List Char → List Char
  | [] => []
  | c :: rest => if c = ',' then [] else c :: takeUntilComma rest

/-- Models `msg.date.split(',')[0]` as used by groupMessagesByDay and
isMessageFromToday: the date part of a timestamp string. -/
def datePart (s : String) : String :=
  String.mk (takeUntilComma s.toList)

/-- Models `s.split('.')`: split a character list on the dot separator. -/
def splitDots : List Char → List (List Char)
  | [] => [[]]
  | c :: rest =>
    if c = '.' then [] :: splitDots rest
    else
      match splitDots rest with
      | [] => [[c]]
      | p :: ps => (c :: p) :: ps

/-- Decimal value of a digit list, most significant first. -/
def digitsToNat (cs : List Char) : Nat :=
  cs.foldl (fun n c => n * 10 + (c.toNat - 48)) 0

/-- Models JS `Number(t)` on the date components occurring here:
`Number('')` is `0`, a string of decimal digits is its value and
anything else is `NaN` (modelled as `none`). -/
def parseNumJS (cs : List Char) : Option Nat :=
  if cs.isEmpty then some 0
  else if cs.all Char.isDigit then some (digitsToNat cs) else none

/-- Models JS `s.trim()`: drop ASCII whitespace from both ends. -/
def trimString (s : String) : String :=
  String.mk
    (((s.toList.dropWhile fun c => c = ' ' ∨ c = '\t' ∨ c = '\n' ∨ c = '\r').reverse.dropWhile
      fun c => c = ' ' ∨ c = '\t' ∨ c = '\n' ∨ c = '\r').reverse)

/-- Models `array.join('\n')`. -/
def joinLines : List String → String
  | [] => ""
  | [x] => x
  | x :: y :: xs => x ++ "\n" ++ joinLines (y :: xs)

/-! ## Data model (src/index.js middleware session shape) -/

/-- One history entry: `{ role, content, date }` as pushed by the
message handlers. -/
structure Turn where
  role : String
  content : String
  date : String
deriving DecidableEq

/-- One consolidated day summary: `{ text, date }` as stored by
generateSummary (`date` is the generation timestamp). -/
structure Memory where
  text : String
  date : String
deriving DecidableEq

/-- The `memories` object: a day-key-to-Memory mapping. JS object
string keys preserve insertion order (the keys contain dots, so no
integer-key reordering applies), hence an association list. -/
abbrev Memories := List (String × Memory)

/-- Per-user session as created by the middleware. The generation
parameters `maxOutputTokens`/`temperature` are omitted: no claim
concerns them and `temperature` is a float. -/
structure Session where
  history : List Turn
  memories : Memories
  messageCountSinceSummary : Nat
  mainModel : String
  backupModel : String
deriving DecidableEq

/-- The day/month/year components read off `new Date()` by
isMessageFromToday (`getDate()`, `getMonth() + 1`, `getFullYear()`). -/
structure DateTriple where
  day : Nat
  month : Nat
  year : Nat
deriving DecidableEq

/-- One prompt fragment `{ text }` pushed into `contents`. -/
structure Content where
  text : String
deriving DecidableEq

/-- Models reading `object[key]`: the value at the first (unique)
occurrence of the key, or `none`. -/
def getEntry : List (String × α) → String → Option α
  | [], _ => none
  | (k, v) :: rest, d => if k = d then some v else getEntry rest d

/-- Models `object[key] = value`: replace the value at an existing key
in place, or append a new key at the end (JS insertion order). -/
def setMem : Memories → String → Memory → Memories
  | [], k, v => [(k, v)]
  | (k', v') :: rest, k, v =>
    if k' = k then (k', v) :: rest else (k', v') :: setMem rest k v

/-! ## Context Composer (src/index.js lines 238-259, 1277-1287) -/

/-- Embeds isMessageFromToday: take the date part before the comma,
split it on dots, convert the first three components with `Number`, and
compare them with today's day, month+1, year. Missing components are
`NaN` (`none`) and compare unequal. -/
def isMessageFromToday (today : DateTriple) (messageDateString : String) : Bool :=
  match (splitDots (takeUntilComma messageDateString.toList)).map parseNumJS with
  | d :: m :: y :: _ =>
    decide (d = some today.day ∧ m = some today.month ∧ y = some today.year)
  | _ => false

/-- Fragment pushed for one memories entry. -/
def memoryFragment (date : String) (memory : Memory) : Content :=
  ⟨"Воспоминания за " ++ date ++ ":\n" ++ memory.text ++ "\n"⟩

/-- Fragment pushed for one recent-history turn; an empty date yields
no parenthesised date (the JS conditional template). -/
def historyFragment (message : Turn) : Content :=
  ⟨message.role ++ (if message.date = "" then "" else "(" ++ message.date ++ ")")
    ++ ": " ++ message.content ++ "\n"⟩

/-- Fragment pushed for the new user turn. -/
def newTurnFragment (userName userMessage messageDate : String) : Content :=
  ⟨userName ++ (if messageDate = "" then "" else "(" ++ messageDate ++ ")")
    ++ ": " ++ userMessage ++ "\n"⟩

/-- The fixed assistant-name continuation cue. -/
def assistantCue : Content := ⟨"Гермиона:"⟩

/-- Models `array.slice(-n)`: the last at most `n` elements. -/
def lastN (n : Nat) (l : List α) : List α :=
  l.drop (l.length - n)

/-- Embeds buildContents: memory fragments in insertion order, then the
last at most 20 of today's history turns, then the new-turn fragment
and the continuation cue. The source also binds a local
`today = new Date().toLocaleDateString('ru-RU')` that it never uses;
the ambient date actually consulted is the one read by
isMessageFromToday, passed here as `today`. -/
def buildContents (history : List Turn) (memories : Memories)
    (userName userMessage messageDate : String) (today : DateTriple) : List Content :=
  (memories.map fun p => memoryFragment p.1 p.2)
    ++ ((lastN 20 (history.filter fun msg => isMessageFromToday today msg.date)).map
        historyFragment)
    ++ [newTurnFragment userName userMessage messageDate, assistantCue]

/-! ## Day grouping and memory consolidation (lines 1089-1202) -/

/-- One step of groupMessagesByDay: append the message to its day's
group, creating the group at the end on first occurrence. -/
def addToGroup : List (String × List Turn) → String → Turn → List (String × List Turn)
  | [], d, m => [(d, [m])]
  | (k, ms) :: rest, d, m =>
    if k = d then (k, ms ++ [m]) :: rest
    else (k, ms) :: addToGroup rest d m

/-- Embeds groupMessagesByDay: bucket the history by the date part of
each turn's timestamp, groups in first-occurrence order, each group in
original order. -/
def groupMessagesByDay (messages : List Turn) : List (String × List Turn) :=
  messages.foldl (fun acc m => addToGroup acc (datePart m.date) m) []

/-- The re-summarization condition of generateSummary: no memory for
the day yet, or its text trims to empty, or the day is today. -/
def needsSummary (memories : Memories) (today date : String) : Bool :=
  match getEntry memories date with
  | none => true
  | some m => if trimString m.text = "" then true else if date = today then true else false

/-- The `previousMemoriesText` accumulation: every other day's memory
text, in insertion order. -/
def previousMemoriesText (memories : Memories) (date : String) : String :=
  memories.foldl
    (fun acc p =>
      if p.1 = date then acc
      else acc ++ "Воспоминания за " ++ p.1 ++ ":\n" ++ p.2.text ++ "\n")
    ""

/-- The per-day summarization prompt of generateSummary. -/
def summaryPrompt (date : String) : String :=
  "Ты Гермиона Грейнджер и твоя задача, посмотрев на эту переписку за "
    ++ date ++ ", ... (твой актуальный запрос на суммаризацию)"

/-- One transcript line of the day's history text. -/
def turnLine (msg : Turn) : String :=
  msg.role ++ " (" ++ msg.date ++ "): " ++ msg.content

/-- The two-fragment contents sent to the summarization model for one
day group. -/
def summaryContents (memories : Memories) (date : String) (messages : List Turn) :
    List Content :=
  [⟨"Предыдущие воспоминания:\n" ++ previousMemoriesText memories date⟩,
   ⟨summaryPrompt date ++ "\n" ++ joinLines (messages.map turnLine)⟩]

/-- Outcome of one generateSummary pass. `attempted` records the days
for which the summarization model was invoked in order; `ok` is whether
the pass ran to completion (the source catches any mid-pass exception
at the whole-function level, so generateSummary itself never throws). -/
structure ConsolidationResult where
  session : Session
  attempted : List String
  ok : Bool
deriving DecidableEq

/-- An abstract error value for a thrown JS exception. -/
structure SummErr where
  msg : String
deriving DecidableEq

/-- The `for (const [date, messages] of Object.entries(groupedMessages))`
loop of generateSummary. `summarize` is the single-attempt
summarization-model call composed with the external `sanitizeHtml`
filter applied to the returned text. On the first failure the loop
aborts, keeping the memory entries already written (the source mutates
`session.memories` in place through the `memories` alias) and reporting
failure. -/
def consolidateLoop (summarize : List Content → Except SummErr String)
    (today now : String) :
    List (String × List Turn) → Memories → List String →
      Memories × List String × Bool
  | [], mem, att => (mem, att, true)
  | (date, messages) :: rest, mem, att =>
    if needsSummary mem today date then
      match summarize (summaryContents mem date messages) with
      | Except.ok text =>
          consolidateLoop summarize today now rest (setMem mem date ⟨text, now⟩)
            (att ++ [date])
      | Except.error _ => (mem, att ++ [date], false)
    else consolidateLoop summarize today now rest mem att

/-- Embeds generateSummary. `today` is
`new Date().toLocaleDateString('ru-RU')` and `now` is the
`new Date().toLocaleString()` stored as the memory's generation
timestamp. On completion the history is replaced by today's group; on a
caught mid-pass failure the history is left as it was and only the
memory entries written before the failure remain. -/
def generateSummary (summarize : List Content → Except SummErr String)
    (today now : String) (s : Session) : ConsolidationResult :=
  if s.history.isEmpty then ⟨s, [], true⟩
  else
    let groups := groupMessagesByDay s.history
    match consolidateLoop summarize today now groups s.memories [] with
    | (mem, att, true) =>
        ⟨{ s with memories := mem, history := (getEntry groups today).getD [] }, att, true⟩
    | (mem, att, false) =>
        ⟨{ s with memories := mem }, att, false⟩

/-- The days of a grouping that the consolidation pass would summarize,
judged against the memories at the start of the pass. -/
def neededDates (groups : List (String × List Turn)) (memories : Memories)
    (today : String) : List String :=
  (groups.filter fun p => needsSummary memories today p.1).map Prod.fst

/-! ## Dispatch engine (lines 1101-1125, 1210-1275) -/

/-- A thrown provider error: optional HTTP-like status, optional
prompt-feedback block reason, message text. -/
structure GenError where
  status : Option Nat
  blockReason : Option String
  msg : String
deriving DecidableEq

/-- A generation result; `usedBackupModel` is unset on anything a plain
adapter returns and is set only by the fallback path. -/
structure GenResult where
  text : String
  usedBackupModel : Bool
deriving DecidableEq

/-- The transient-error test of the retry loop:
`error.status === 503 || error.status === 429`. -/
def isTransient (e : GenError) : Bool :=
  if e.status = some 503 then true else if e.status = some 429 then true else false

/-- The `for (attempt = 1; attempt <= retries; attempt++)` loop of
generateResponseWithRetry: `fuel` is the number of attempts still
allowed including the current one, so `0 < fuel - 1` is
`attempt < retries`. The `fuel = 0` case never arises from the
callers (they pass `retries` of 1 or 3; with `retries = 0` the JS loop
body never runs). -/
def retryGo (gen : Nat → Except GenError GenResult) : Nat → Nat → Except GenError GenResult
  | _, 0 => Except.error ⟨none, none, "no attempts"⟩
  | attempt, fuel + 1 =>
    match gen attempt with
    | Except.ok r => Except.ok r
    | Except.error e =>
        if isTransient e ∧ 0 < fuel then retryGo gen (attempt + 1) fuel
        else Except.error e

/-- Embeds generateResponseWithRetry: attempts start at 1; a transient
failure before the budget is exhausted retries, anything else is
thrown. The inter-attempt delays are timing only. -/
def generateResponseWithRetry (gen : Nat → Except GenError GenResult)
    (retries : Nat) : Except GenError GenResult :=
  retryGo gen 1 retries

/-- The error translation of generateGeminiResponse's catch block. -/
def mapGeminiError (e : GenError) : GenError :=
  if e.status = some 503 then
    ⟨none, none, "Модель временно недоступна. Попробуй позже."⟩
  else if e.status = some 429 then
    ⟨none, none, "Слишком много запросов. Попробуй позже."⟩
  else if e.blockReason = some "PROHIBITED_CONTENT" then
    ⟨none, none, "Ответ заблокирован из-за запрещённого содержания."⟩
  else e

/-- Embeds generateGeminiResponse: a 3-attempt retry whose final error
is translated for the user. -/
def generateGeminiResponse (gen : Nat → Except GenError GenResult) :
    Except GenError GenResult :=
  match generateResponseWithRetry gen 3 with
  | Except.ok r => Except.ok r
  | Except.error e => Except.error (mapGeminiError e)

/-- Embeds generateResponseWithBackup over the two adapters (each a
per-attempt oracle). On a primary failure the backup is tried once with
its own retry policy; a backup success is tagged `usedBackupModel`; a
backup failure surfaces the primary's error. The `finally` blocks only
release model handles (cleanupModel) and do not affect the value. -/
def generateResponseWithBackup (genMain genBackup : Nat → Except GenError GenResult) :
    Except GenError GenResult :=
  match generateGeminiResponse genMain with
  | Except.ok r => Except.ok r
  | Except.error e =>
      match generateGeminiResponse genBackup with
      | Except.ok r => Except.ok { r with usedBackupModel := true }
      | Except.error _ => Except.error e

/-! ## Settings mutations (lines 640-790) -/

/-- The shared body of the three `set_main_model_*` handlers: reject
when the requested primary equals the current backup, else assign.
The Bool is whether the assignment happened. -/
def setMainModel (s : Session) (newMainModel : String) : Session × Bool :=
  if newMainModel = s.backupModel then (s, false)
  else ({ s with mainModel := newMainModel }, true)

/-- The shared body of the three `set_backup_model_*` handlers. -/
def setBackupModel (s : Session) (newBackupModel : String) : Session × Bool :=
  if newBackupModel = s.mainModel then (s, false)
  else ({ s with backupModel := newBackupModel }, true)

/-! ## Delete-last-N (message:text handler, lines 1293-1312) -/

/-- The `awaitingMessageDeletionCount` branch for a validated positive
count: with an empty history nothing is spliced; otherwise
`history.splice(-number)` keeps the first `length - number` entries
(all removed when the count exceeds the length). -/
def deleteLastN (s : Session) (number : Nat) : Session :=
  if s.history.isEmpty then s
  else { s with history := s.history.take (s.history.length - number) }

/-! ## Empty-reply fallback (lines 1365-1378, 1556-1571, 1747-1760) -/

/-- The `if (!botReply || botReply.trim() === '')` replacement applied
to the sanitized reply in every handler. -/
def finalizeReply (botReply apology : String) : String :=
  if botReply = "" ∨ trimString botReply = "" then apology else botReply

/-- The apology of the text handler. -/
def textApology : String := "Извини, но я не смогла сформулировать ответ."

/-- The apology of the photo handler. -/
def photoApology : String := "Извини, но я не смогла обработать это изображение."

/-- The apology of the voice/audio handler. -/
def audioApology : String := "Извини, но я не смогла обработать это аудиосообщение."

/-- The assistant turn pushed by the handlers after the reply is
finalized. -/
def assistantTurn (reply now : String) : Turn :=
  ⟨"Гермиона", reply, now⟩

/-- The append of the assistant turn to the session history. -/
def appendAssistantTurn (s : Session) (reply now : String) : Session :=
  { s with history := s.history ++ [assistantTurn reply now] }

/-! ## Helper lemmas -/

/-- A finalized reply is nonempty whenever the apology is. -/
theorem finalizeReply_ne_empty (raw apology : String) (h : apology ≠ "") :
    finalizeReply raw apology ≠ "" := by
  unfold finalizeReply
  split
  · exact h
  · next hc =>
      push_neg at hc
      exact hc.1

/-- If every attempt of the adapter throws, the retry loop throws. -/
theorem retryGo_all_error (gen : Nat → Except GenError GenResult)
    (errs : Nat → GenError) (h : ∀ n, gen n = Except.error (errs n)) :
    ∀ fuel attempt, ∃ e, retryGo gen attempt fuel = Except.error e := by
  intro fuel
  induction fuel with
  | zero => intro a; exact ⟨_, rfl⟩
  | succ f ih =>
      intro a
      simp only [retryGo, h a]
      split
      · exact ih (a + 1)
      · exact ⟨_, rfl⟩

/-! ## C2 — primary/backup fallback -/

/-- C2: when every call to the primary adapter fails, a succeeding
backup yields the backup's text tagged `usedBackupModel`, and a failing
backup surfaces exactly the primary path's error. -/
theorem c2_fallback (genMain genB genB' : Nat → Except GenError GenResult)
    (errs errs' : Nat → GenError) (t : String)
    (hm : ∀ n, genMain n = Except.error (errs n))
    (hb : ∀ n, genB n = Except.ok ⟨t, false⟩)
    (hb' : ∀ n, genB' n = Except.error (errs' n)) :
    generateResponseWithBackup genMain genB = Except.ok ⟨t, true⟩
    ∧ generateResponseWithBackup genMain genB' = generateGeminiResponse genMain
    ∧ ∃ e, generateGeminiResponse genMain = Except.error e := by
  obtain ⟨e, he⟩ := retryGo_all_error genMain errs hm 3 1
  have hgm : generateGeminiResponse genMain = Except.error (mapGeminiError e) := by
    simp only [generateGeminiResponse, generateResponseWithRetry, he]
  have hgb : generateGeminiResponse genB = Except.ok ⟨t, false⟩ := by
    simp [generateGeminiResponse, generateResponseWithRetry, retryGo, hb 1]
  obtain ⟨e', he'⟩ := retryGo_all_error genB' errs' hb' 3 1
  have hgb' : generateGeminiResponse genB' = Except.error (mapGeminiError e') := by
    simp only [generateGeminiResponse, generateResponseWithRetry, he']
  refine ⟨?_, ?_, ⟨_, hgm⟩⟩
  · simp [generateResponseWithBackup, hgm, hgb]
  · simp [generateResponseWithBackup, hgm, hgb']

/-- Witness for c2_fallback at concrete adapters. -/
theorem c2_fallback_witness :
    generateResponseWithBackup (fun _ => Except.error ⟨some 500, none, "main down"⟩)
        (fun _ => Except.ok ⟨"backup says hi", false⟩)
      = Except.ok ⟨"backup says hi", true⟩
    ∧ generateResponseWithBackup (fun _ => Except.error ⟨some 500, none, "main down"⟩)
        (fun _ => Except.error ⟨some 503, none, "backup down"⟩)
      = generateGeminiResponse (fun _ => Except.error ⟨some 500, none, "main down"⟩)
    ∧ ∃ e, generateGeminiResponse (fun _ => Except.error ⟨some 500, none, "main down"⟩)
        = Except.error e :=
  c2_fallback (fun _ => Except.error ⟨some 500, none, "main down"⟩)
    (fun _ => Except.ok ⟨"backup says hi", false⟩)
    (fun _ => Except.error ⟨some 503, none, "backup down"⟩)
    (fun _ => ⟨some 500, none, "main down"⟩)
    (fun _ => ⟨some 503, none, "backup down"⟩)
    "backup says hi" (fun _ => rfl) (fun _ => rfl) (fun _ => rfl)

/-! ## C3 — retry policy -/

/-- C3: with the 3-attempt budget, two transient failures followed by a
success return the third attempt's value; a non-transient first failure
is propagated for every adapter behaviour at the later attempts, so no
second attempt is made. -/
theorem c3_retry_policy (gen gen' : Nat → Except GenError GenResult)
    (e₁ e₂ e : GenError) (v : GenResult)
    (h₁ : gen 1 = Except.error e₁) (ht₁ : isTransient e₁ = true)
    (h₂ : gen 2 = Except.error e₂) (ht₂ : isTransient e₂ = true)
    (h₃ : gen 3 = Except.ok v)
    (h₁' : gen' 1 = Except.error e) (hnt : isTransient e = false) :
    generateResponseWithRetry gen 3 = Except.ok v
    ∧ generateResponseWithRetry gen' 3 = Except.error e := by
  constructor
  · simp [generateResponseWithRetry, retryGo, h₁, h₂, h₃, ht₁, ht₂]
  · simp [generateResponseWithRetry, retryGo, h₁', hnt]

/-- Witness for c3_retry_policy at concrete adapters. -/
theorem c3_retry_policy_witness :
    generateResponseWithRetry
        (fun n => if n < 3 then Except.error ⟨some 503, none, "transient"⟩
          else Except.ok ⟨"ok", false⟩) 3
      = Except.ok ⟨"ok", false⟩
    ∧ generateResponseWithRetry (fun _ => Except.error ⟨some 500, none, "boom"⟩) 3
      = Except.error ⟨some 500, none, "boom"⟩ :=
  c3_retry_policy
    (fun n => if n < 3 then Except.error ⟨some 503, none, "transient"⟩
      else Except.ok ⟨"ok", false⟩)
    (fun _ => Except.error ⟨some 500, none, "boom"⟩)
    ⟨some 503, none, "transient"⟩ ⟨some 503, none, "transient"⟩
    ⟨some 500, none, "boom"⟩ ⟨"ok", false⟩
    rfl rfl rfl rfl rfl rfl rfl

/-! ## C4 — composer shape and fragment count -/

/-- C4: the composed fragment sequence is the memory fragments in
insertion order, then the last at most 20 of today's turns in original
order, then the new-turn fragment and the continuation cue, for a total
of memories plus min 20 today's-turn-count plus 2 fragments. -/
theorem c4_buildContents_shape (history : List Turn) (memories : Memories)
    (userName userMessage messageDate : String) (today : DateTriple) :
    buildContents history memories userName userMessage messageDate today
      = (memories.map fun p => memoryFragment p.1 p.2)
        ++ ((lastN 20 (history.filter fun msg => isMessageFromToday today msg.date)).map
            historyFragment)
        ++ [newTurnFragment userName userMessage messageDate, assistantCue]
    ∧ (buildContents history memories userName userMessage messageDate today).length
      = memories.length
        + min 20 (history.filter fun msg => isMessageFromToday today msg.date).length
        + 2 := by
  refine ⟨rfl, ?_⟩
  simp [buildContents, lastN]
  omega

/-! ## C5 — composer determinism -/

/-- C5 counterexample: the same five arguments produce different
fragment sequences on two different ambient current dates, because the
today-filter reads the current date. -/
theorem c5_counterexample :
    buildContents [⟨"u", "hi", "15.03.2024, 10:00:00"⟩] [] "user" "msg"
        "16.03.2024, 09:00:00" ⟨15, 3, 2024⟩
      ≠ buildContents [⟨"u", "hi", "15.03.2024, 10:00:00"⟩] [] "user" "msg"
        "16.03.2024, 09:00:00" ⟨16, 3, 2024⟩ := by decide

/-- C5 as amended: the composer is deterministic in its five arguments
together with the ambient current date — identical arguments and an
identical current date always produce identical fragment sequences. -/
theorem c5_deterministic (h₁ h₂ : List Turn) (m₁ m₂ : Memories)
    (u₁ u₂ msg₁ msg₂ d₁ d₂ : String) (t₁ t₂ : DateTriple)
    (eh : h₁ = h₂) (em : m₁ = m₂) (eu : u₁ = u₂) (emsg : msg₁ = msg₂)
    (ed : d₁ = d₂) (et : t₁ = t₂) :
    buildContents h₁ m₁ u₁ msg₁ d₁ t₁ = buildContents h₂ m₂ u₂ msg₂ d₂ t₂ := by
  subst eh; subst em; subst eu; subst emsg; subst ed; subst et; rfl

/-- Witness for c5_deterministic at concrete input. -/
theorem c5_deterministic_witness :
    buildContents [⟨"u", "hi", "15.03.2024, 10:00:00"⟩] [] "user" "msg" "d" ⟨15, 3, 2024⟩
      = buildContents [⟨"u", "hi", "15.03.2024, 10:00:00"⟩] [] "user" "msg" "d"
        ⟨15, 3, 2024⟩ :=
  c5_deterministic _ _ _ _ _ _ _ _ _ _ _ _ rfl rfl rfl rfl rfl rfl

/-! ## C8 — provider-pair settings invariant -/

/-- C8: requesting a primary equal to the current backup, or a backup
equal to the current primary, is rejected and the session is returned
unchanged. -/
theorem c8_model_settings_reject (s : Session) (m m' : String)
    (hmain : m = s.backupModel) (hback : m' = s.mainModel) :
    setMainModel s m = (s, false) ∧ setBackupModel s m' = (s, false) := by
  subst hmain; subst hback
  constructor
  · simp [setMainModel]
  · simp [setBackupModel]

/-- Witness for c8_model_settings_reject at a concrete session. -/
theorem c8_model_settings_reject_witness :
    setMainModel ⟨[], [], 0, "gemini-exp-1206", "gemini-1.5-pro-002"⟩
        "gemini-1.5-pro-002"
      = (⟨[], [], 0, "gemini-exp-1206", "gemini-1.5-pro-002"⟩, false)
    ∧ setBackupModel ⟨[], [], 0, "gemini-exp-1206", "gemini-1.5-pro-002"⟩
        "gemini-exp-1206"
      = (⟨[], [], 0, "gemini-exp-1206", "gemini-1.5-pro-002"⟩, false) :=
  c8_model_settings_reject _ _ _ rfl rfl

/-! ## C9 — delete-last-N -/

/-- C9: for a positive count the operation keeps the memories, removes
exactly the last `n` turns when `n` is at most the length, and removes
everything when `n` exceeds the length. -/
theorem c9_deleteLastN (s : Session) (n : Nat) (hn : 0 < n) :
    (deleteLastN s n).memories = s.memories
    ∧ (n ≤ s.history.length →
        (deleteLastN s n).history = s.history.take (s.history.length - n)
        ∧ (deleteLastN s n).history.length = s.history.length - n
        ∧ s.history
            = (deleteLastN s n).history ++ s.history.drop (s.history.length - n)
        ∧ (s.history.drop (s.history.length - n)).length = n)
    ∧ (s.history.length < n → (deleteLastN s n).history = []) := by
  unfold deleteLastN
  by_cases hemp : s.history.isEmpty
  · rw [if_pos hemp]
    have h0 : s.history = [] := List.isEmpty_iff.mp hemp
    refine ⟨rfl, ?_, ?_⟩
    · intro hle
      rw [h0] at hle
      simp at hle
      omega
    · intro _
      exact h0
  · rw [if_neg hemp]
    refine ⟨rfl, ?_, ?_⟩
    · intro hle
      refine ⟨rfl, ?_, ?_, ?_⟩
      · rw [List.length_take]
        omega
      · exact (List.take_append_drop _ _).symm
      · rw [List.length_drop]
        omega
    · intro hlt
      have h0 : s.history.length - n = 0 := by omega
      simp [h0]

/-- Witness for c9_deleteLastN at a concrete session. -/
theorem c9_deleteLastN_witness :
    (deleteLastN ⟨[⟨"u", "a", "d1"⟩, ⟨"u", "b", "d2"⟩],
        [("01.01.2024", ⟨"S", "g"⟩)], 0, "x", "y"⟩ 1).memories
      = (⟨[⟨"u", "a", "d1"⟩, ⟨"u", "b", "d2"⟩],
        [("01.01.2024", ⟨"S", "g"⟩)], 0, "x", "y"⟩ : Session).memories
    ∧ (1 ≤ (⟨[⟨"u", "a", "d1"⟩, ⟨"u", "b", "d2"⟩],
        [("01.01.2024", ⟨"S", "g"⟩)], 0, "x", "y"⟩ : Session).history.length →
        (deleteLastN ⟨[⟨"u", "a", "d1"⟩, ⟨"u", "b", "d2"⟩],
            [("01.01.2024", ⟨"S", "g"⟩)], 0, "x", "y"⟩ 1).history
          = (⟨[⟨"u", "a", "d1"⟩, ⟨"u", "b", "d2"⟩],
            [("01.01.2024", ⟨"S", "g"⟩)], 0, "x", "y"⟩ : Session).history.take
              ((⟨[⟨"u", "a", "d1"⟩, ⟨"u", "b", "d2"⟩],
                [("01.01.2024", ⟨"S", "g"⟩)], 0, "x", "y"⟩ : Session).history.length - 1)
        ∧ (deleteLastN ⟨[⟨"u", "a", "d1"⟩, ⟨"u", "b", "d2"⟩],
            [("01.01.2024", ⟨"S", "g"⟩)], 0, "x", "y"⟩ 1).history.length
          = (⟨[⟨"u", "a", "d1"⟩, ⟨"u", "b", "d2"⟩],
            [("01.01.2024", ⟨"S", "g"⟩)], 0, "x", "y"⟩ : Session).history.length - 1
        ∧ (⟨[⟨"u", "a", "d1"⟩, ⟨"u", "b", "d2"⟩],
            [("01.01.2024", ⟨"S", "g"⟩)], 0, "x", "y"⟩ : Session).history
          = (deleteLastN ⟨[⟨"u", "a", "d1"⟩, ⟨"u", "b", "d2"⟩],
              [("01.01.2024", ⟨"S", "g"⟩)], 0, "x", "y"⟩ 1).history
            ++ (⟨[⟨"u", "a", "d1"⟩, ⟨"u", "b", "d2"⟩],
              [("01.01.2024", ⟨"S", "g"⟩)], 0, "x", "y"⟩ : Session).history.drop
                ((⟨[⟨"u", "a", "d1"⟩, ⟨"u", "b", "d2"⟩],
                  [("01.01.2024", ⟨"S", "g"⟩)], 0, "x", "y"⟩ : Session).history.length - 1)
        ∧ ((⟨[⟨"u", "a", "d1"⟩, ⟨"u", "b", "d2"⟩],
            [("01.01.2024", ⟨"S", "g"⟩)], 0, "x", "y"⟩ : Session).history.drop
              ((⟨[⟨"u", "a", "d1"⟩, ⟨"u", "b", "d2"⟩],
                [("01.01.2024", ⟨"S", "g"⟩)], 0, "x", "y"⟩ : Session).history.length
                - 1)).length = 1)
    ∧ ((⟨[⟨"u", "a", "d1"⟩, ⟨"u", "b", "d2"⟩],
        [("01.01.2024", ⟨"S", "g"⟩)], 0, "x", "y"⟩ : Session).history.length < 1 →
        (deleteLastN ⟨[⟨"u", "a", "d1"⟩, ⟨"u", "b", "d2"⟩],
          [("01.01.2024", ⟨"S", "g"⟩)], 0, "x", "y"⟩ 1).history = []) :=
  c9_deleteLastN ⟨[⟨"u", "a", "d1"⟩, ⟨"u", "b", "d2"⟩],
    [("01.01.2024", ⟨"S", "g"⟩)], 0, "x", "y"⟩ 1 (by decide)

/-! ## C10 — empty-reply fallback -/

/-- C10: for each handler's apology, the finalized reply is never
empty, and the assistant turn appended to the history therefore carries
nonempty text. -/
theorem c10_reply_nonempty (raw : String) (s : Session) (now : String) :
    finalizeReply raw textApology ≠ ""
    ∧ finalizeReply raw photoApology ≠ ""
    ∧ finalizeReply raw audioApology ≠ ""
    ∧ (appendAssistantTurn s (finalizeReply raw textApology) now).history.getLast?
        = some (assistantTurn (finalizeReply raw textApology) now)
    ∧ (assistantTurn (finalizeReply raw textApology) now).content ≠ "" := by
  have ht := finalizeReply_ne_empty raw textApology (by decide)
  have hp := finalizeReply_ne_empty raw photoApology (by decide)
  have ha := finalizeReply_ne_empty raw audioApology (by decide)
  refine ⟨ht, hp, ha, ?_, ht⟩
  simp [appendAssistantTurn]

/-! ## Association-list lemmas for getEntry, setMem, addToGroup -/

/-- An entry found by getEntry is in the list. -/
theorem getEntry_mem {α : Type} {l : List (String × α)} {d : String} {v : α}
    (h : getEntry l d = some v) : (d, v) ∈ l := by
  induction l with
  | nil => simp [getEntry] at h
  | cons p rest ih =>
      obtain ⟨k, w⟩ := p
      simp only [getEntry] at h
      split at h
      · next hk =>
          injection h with hv
          subst hk; subst hv
          exact List.mem_cons_self _ _
      · exact List.mem_cons_of_mem _ (ih h)

/-- A present key is found by getEntry. -/
theorem isSome_getEntry_of_mem {α : Type} {l : List (String × α)} {d : String} {v : α}
    (h : (d, v) ∈ l) : (getEntry l d).isSome := by
  induction l with
  | nil => simp at h
  | cons p rest ih =>
      obtain ⟨k, w⟩ := p
      simp only [getEntry]
      split
      · simp
      · next hk =>
          rcases List.mem_cons.mp h with heq | hmem
          · injection heq with h1 h2
            exact absurd h1.symm hk
          · exact ih hmem

/-- getEntry misses exactly when no entry carries the key. -/
theorem getEntry_eq_none {α : Type} {l : List (String × α)} {d : String} :
    getEntry l d = none ↔ ∀ p ∈ l, p.1 ≠ d := by
  induction l with
  | nil => simp [getEntry]
  | cons p rest ih =>
      obtain ⟨k, w⟩ := p
      simp only [getEntry]
      split
      · next hk => simp [hk]
      · next hk => simp [ih, hk]

/-- setMem stores the value at its key. -/
theorem getEntry_setMem_self (l : Memories) (k : String) (v : Memory) :
    getEntry (setMem l k v) k = some v := by
  induction l with
  | nil => simp [setMem, getEntry]
  | cons p rest ih =>
      obtain ⟨k', w⟩ := p
      simp only [setMem]
      split
      · next hk => simp [getEntry, hk]
      · next hk => simp [getEntry, hk, ih]

/-- setMem leaves every other key unchanged. -/
theorem getEntry_setMem_ne (l : Memories) (k d : String) (v : Memory) (h : k ≠ d) :
    getEntry (setMem l k v) d = getEntry l d := by
  induction l with
  | nil => simp [setMem, getEntry, h]
  | cons p rest ih =>
      obtain ⟨k', w⟩ := p
      simp only [setMem]
      split
      · next hk =>
          subst hk
          simp [getEntry, h]
      · next hk => simp [getEntry, ih]

/-- setMem on a present key keeps the key sequence. -/
theorem setMem_keys_of_isSome (l : Memories) (k : String) (v : Memory)
    (h : (getEntry l k).isSome) : (setMem l k v).map Prod.fst = l.map Prod.fst := by
  induction l with
  | nil => simp [getEntry] at h
  | cons p rest ih =>
      obtain ⟨k', w⟩ := p
      simp only [setMem]
      split
      · next hk => simp
      · next hk =>
          simp only [getEntry, if_neg hk] at h
          simp [ih h]

/-- setMem on an absent key appends the key. -/
theorem setMem_keys_of_none (l : Memories) (k : String) (v : Memory)
    (h : getEntry l k = none) :
    (setMem l k v).map Prod.fst = l.map Prod.fst ++ [k] := by
  induction l with
  | nil => simp [setMem]
  | cons p rest ih =>
      obtain ⟨k', w⟩ := p
      simp only [getEntry] at h
      split at h
      · exact absurd h (by simp)
      · next hk =>
          simp only [setMem, if_neg hk]
          simp [ih h]

/-- Appending one fresh element keeps a list duplicate-free. -/
theorem nodup_append_singleton {l : List String} {k : String}
    (h : l.Nodup) (hk : k ∉ l) : (l ++ [k]).Nodup := by
  simp [List.nodup_append, h, hk]

/-- setMem preserves key uniqueness. -/
theorem nodup_keys_setMem (l : Memories) (k : String) (v : Memory)
    (h : (l.map Prod.fst).Nodup) : ((setMem l k v).map Prod.fst).Nodup := by
  cases hg : getEntry l k with
  | some w =>
      rw [setMem_keys_of_isSome l k v (by simp [hg])]
      exact h
  | none =>
      rw [setMem_keys_of_none l k v hg]
      refine nodup_append_singleton h ?_
      intro hmem
      obtain ⟨p, hp, hfst⟩ := List.mem_map.mp hmem
      exact absurd hfst (getEntry_eq_none.mp hg p hp)

/-- addToGroup appends the message to its key's group. -/
theorem getEntry_addToGroup_self (l : List (String × List Turn)) (d : String) (t : Turn) :
    getEntry (addToGroup l d t) d = some (((getEntry l d).getD []) ++ [t]) := by
  induction l with
  | nil => simp [addToGroup, getEntry]
  | cons p rest ih =>
      obtain ⟨k, ms⟩ := p
      simp only [addToGroup]
      split
      · next hk => simp [getEntry, hk]
      · next hk => simp [getEntry, hk, ih]

/-- addToGroup leaves every other key's group unchanged. -/
theorem getEntry_addToGroup_ne (l : List (String × List Turn)) (d d' : String) (t : Turn)
    (h : d' ≠ d) : getEntry (addToGroup l d t) d' = getEntry l d' := by
  induction l with
  | nil => simp [addToGroup, getEntry, Ne.symm h]
  | cons p rest ih =>
      obtain ⟨k, ms⟩ := p
      simp only [addToGroup]
      split
      · next hk =>
          subst hk
          simp [getEntry, Ne.symm h]
      · next hk => simp [getEntry, ih]

/-- addToGroup on a present key keeps the key sequence. -/
theorem addToGroup_keys_of_isSome (l : List (String × List Turn)) (d : String) (t : Turn)
    (h : (getEntry l d).isSome) : (addToGroup l d t).map Prod.fst = l.map Prod.fst := by
  induction l with
  | nil => simp [getEntry] at h
  | cons p rest ih =>
      obtain ⟨k, ms⟩ := p
      simp only [addToGroup]
      split
      · next hk => simp
      · next hk =>
          simp only [getEntry, if_neg hk] at h
          simp [ih h]

/-- addToGroup on an absent key appends the key. -/
theorem addToGroup_keys_of_none (l : List (String × List Turn)) (d : String) (t : Turn)
    (h : getEntry l d = none) :
    (addToGroup l d t).map Prod.fst = l.map Prod.fst ++ [d] := by
  induction l with
  | nil => simp [addToGroup]
  | cons p rest ih =>
      obtain ⟨k, ms⟩ := p
      simp only [getEntry] at h
      split at h
      · exact absurd h (by simp)
      · next hk =>
          simp only [addToGroup, if_neg hk]
          simp [ih h]

/-- addToGroup preserves the groups-are-dated invariant when the new
message matches its key. -/
theorem addToGroup_dated (l : List (String × List Turn)) (d : String) (t : Turn)
    (hl : ∀ p ∈ l, ∀ m ∈ p.2, datePart m.date = p.1) (ht : datePart t.date = d) :
    ∀ p ∈ addToGroup l d t, ∀ m ∈ p.2, datePart m.date = p.1 := by
  induction l with
  | nil =>
      intro p hp m hm
      simp [addToGroup] at hp
      subst hp
      simp at hm
      subst hm
      exact ht
  | cons q rest ih =>
      obtain ⟨k, ms⟩ := q
      intro p hp m hm
      simp only [addToGroup] at hp
      split at hp
      · next hk =>
          subst hk
          rcases List.mem_cons.mp hp with rfl | hrest
          · rcases List.mem_append.mp hm with hms | hlast
            · exact hl (k, ms) (List.mem_cons_self _ _) m hms
            · simp at hlast
              subst hlast
              exact ht
          · exact hl p (List.mem_cons_of_mem _ hrest) m hm
      · rcases List.mem_cons.mp hp with rfl | hrest
        · exact hl (k, ms) (List.mem_cons_self _ _) m hm
        · exact ih (fun q hq => hl q (List.mem_cons_of_mem _ hq)) p hrest m hm

/-! ## Lemmas about groupMessagesByDay -/

/-- Every turn in a group of the fold carries the group's date. -/
theorem foldGroup_dated (msgs : List Turn) :
    ∀ acc, (∀ p ∈ acc, ∀ m ∈ p.2, datePart m.date = p.1) →
    ∀ p ∈ msgs.foldl (fun a m => addToGroup a (datePart m.date) m) acc,
      ∀ m ∈ p.2, datePart m.date = p.1 := by
  induction msgs with
  | nil =>
      intro acc h
      simpa using h
  | cons m rest ih =>
      intro acc h
      simp only [List.foldl_cons]
      exact ih _ (addToGroup_dated _ _ _ h rfl)

/-- A key present in the accumulator stays present through the fold. -/
theorem foldGroup_isSome (msgs : List Turn) :
    ∀ acc d, (getEntry acc d).isSome →
    (getEntry (msgs.foldl (fun a m => addToGroup a (datePart m.date) m) acc) d).isSome := by
  induction msgs with
  | nil =>
      intro acc d h
      simpa using h
  | cons m rest ih =>
      intro acc d h
      simp only [List.foldl_cons]
      apply ih
      by_cases hd : d = datePart m.date
      · subst hd
        rw [getEntry_addToGroup_self]
        simp
      · rw [getEntry_addToGroup_ne _ _ _ _ hd]
        exact h

/-- Every message's date key is present after the fold. -/
theorem foldGroup_covers (msgs : List Turn) :
    ∀ acc, ∀ t ∈ msgs,
    (getEntry (msgs.foldl (fun a m => addToGroup a (datePart m.date) m) acc)
      (datePart t.date)).isSome := by
  induction msgs with
  | nil =>
      intro acc t h
      simp at h
  | cons m rest ih =>
      intro acc t ht
      simp only [List.foldl_cons]
      rcases List.mem_cons.mp ht with rfl | hmem
      · apply foldGroup_isSome
        rw [getEntry_addToGroup_self]
        simp
      · exact ih _ t hmem

/-- A key present after the fold was present before or belongs to some
folded message. -/
theorem foldGroup_isSome_src (msgs : List Turn) :
    ∀ acc d,
    (getEntry (msgs.foldl (fun a m => addToGroup a (datePart m.date) m) acc) d).isSome →
    (getEntry acc d).isSome ∨ ∃ t ∈ msgs, datePart t.date = d := by
  induction msgs with
  | nil =>
      intro acc d h
      exact Or.inl (by simpa using h)
  | cons m rest ih =>
      intro acc d h
      simp only [List.foldl_cons] at h
      rcases ih _ d h with hacc | ⟨t, ht, hdt⟩
      · by_cases hd : d = datePart m.date
        · exact Or.inr ⟨m, List.mem_cons_self _ _, hd.symm⟩
        · rw [getEntry_addToGroup_ne _ _ _ _ hd] at hacc
          exact Or.inl hacc
      · exact Or.inr ⟨t, List.mem_cons_of_mem _ ht, hdt⟩

/-- The fold preserves key uniqueness. -/
theorem foldGroup_nodup (msgs : List Turn) :
    ∀ acc, ((acc.map Prod.fst).Nodup) →
    (((msgs.foldl (fun a m => addToGroup a (datePart m.date) m) acc).map Prod.fst).Nodup) := by
  induction msgs with
  | nil =>
      intro acc h
      simpa using h
  | cons m rest ih =>
      intro acc h
      simp only [List.foldl_cons]
      apply ih
      cases hg : getEntry acc (datePart m.date) with
      | some w =>
          rw [addToGroup_keys_of_isSome _ _ _ (by simp [hg])]
          exact h
      | none =>
          rw [addToGroup_keys_of_none _ _ _ hg]
          refine nodup_append_singleton h ?_
          intro hmem
          obtain ⟨p, hp, hfst⟩ := List.mem_map.mp hmem
          exact absurd hfst (getEntry_eq_none.mp hg p hp)

/-! ## Lemmas about consolidateLoop and generateSummary -/

/-- A day not re-summarized already has a memory entry. -/
theorem isSome_of_not_needsSummary {mem : Memories} {today date : String}
    (h : needsSummary mem today date = false) : (getEntry mem date).isSome := by
  unfold needsSummary at h
  cases hg : getEntry mem date with
  | none =>
      rw [hg] at h
      simp at h
  | some m => simp

/-- The loop never removes a memory entry. -/
theorem consolidateLoop_isSome (f : List Content → Except SummErr String)
    (today now : String) (entries : List (String × List Turn)) :
    ∀ mem att d, (getEntry mem d).isSome →
    (getEntry (consolidateLoop f today now entries mem att).1 d).isSome := by
  induction entries with
  | nil =>
      intro mem att d h
      simpa [consolidateLoop] using h
  | cons p rest ih =>
      intro mem att d h
      obtain ⟨date, msgs⟩ := p
      by_cases hn : needsSummary mem today date = true
      · simp only [consolidateLoop, if_pos hn]
        cases hf : f (summaryContents mem date msgs) with
        | ok text =>
            simp only [hf]
            apply ih
            by_cases hd : date = d
            · subst hd
              rw [getEntry_setMem_self]
              simp
            · rw [getEntry_setMem_ne _ _ _ _ hd]
              exact h
        | error e =>
            simp only [hf]
            exact h
      · simp only [consolidateLoop, if_neg hn]
        exact ih _ _ _ h

/-- On a completed pass, every day group ends with a memory entry. -/
theorem consolidateLoop_covers (f : List Content → Except SummErr String)
    (today now : String) (entries : List (String × List Turn)) :
    ∀ mem att, (consolidateLoop f today now entries mem att).2.2 = true →
    ∀ p ∈ entries, (getEntry (consolidateLoop f today now entries mem att).1 p.1).isSome := by
  induction entries with
  | nil =>
      intro mem att _ p hp
      simp at hp
  | cons q rest ih =>
      intro mem att hok p hp
      obtain ⟨date, msgs⟩ := q
      by_cases hn : needsSummary mem today date = true
      · simp only [consolidateLoop, if_pos hn] at hok ⊢
        cases hf : f (summaryContents mem date msgs) with
        | ok text =>
            simp only [hf] at hok ⊢
            rcases List.mem_cons.mp hp with rfl | hmem
            · exact consolidateLoop_isSome f today now rest _ _ _
                (by rw [getEntry_setMem_self]; simp)
            · exact ih _ _ hok p hmem
        | error e =>
            simp only [hf] at hok
            exact absurd hok (by simp)
      · simp only [consolidateLoop, if_neg hn] at hok ⊢
        rcases List.mem_cons.mp hp with rfl | hmem
        · exact consolidateLoop_isSome f today now rest _ _ _
            (isSome_of_not_needsSummary (by simpa using hn))
        · exact ih _ _ hok p hmem

/-- The loop writes no key outside the entry keys. -/
theorem consolidateLoop_none (f : List Content → Except SummErr String)
    (today now : String) (entries : List (String × List Turn)) :
    ∀ mem att d, (∀ p ∈ entries, p.1 ≠ d) → getEntry mem d = none →
    getEntry (consolidateLoop f today now entries mem att).1 d = none := by
  induction entries with
  | nil =>
      intro mem att d _ h
      simpa [consolidateLoop] using h
  | cons q rest ih =>
      intro mem att d hne h
      obtain ⟨date, msgs⟩ := q
      have hd : date ≠ d := hne (date, msgs) (List.mem_cons_self _ _)
      by_cases hn : needsSummary mem today date = true
      · simp only [consolidateLoop, if_pos hn]
        cases hf : f (summaryContents mem date msgs) with
        | ok text =>
            simp only [hf]
            exact ih _ _ _ (fun p hp => hne p (List.mem_cons_of_mem _ hp))
              (by rw [getEntry_setMem_ne _ _ _ _ hd]; exact h)
        | error e =>
            simp only [hf]
            exact h
      · simp only [consolidateLoop, if_neg hn]
        exact ih _ _ _ (fun p hp => hne p (List.mem_cons_of_mem _ hp)) h

/-- The loop preserves memory-key uniqueness. -/
theorem consolidateLoop_nodup (f : List Content → Except SummErr String)
    (today now : String) (entries : List (String × List Turn)) :
    ∀ mem att, ((mem.map Prod.fst).Nodup) →
    (((consolidateLoop f today now entries mem att).1.map Prod.fst).Nodup) := by
  induction entries with
  | nil =>
      intro mem att h
      simpa [consolidateLoop] using h
  | cons q rest ih =>
      intro mem att h
      obtain ⟨date, msgs⟩ := q
      by_cases hn : needsSummary mem today date = true
      · simp only [consolidateLoop, if_pos hn]
        cases hf : f (summaryContents mem date msgs) with
        | ok text =>
            simp only [hf]
            exact ih _ _ (nodup_keys_setMem _ _ _ h)
        | error e =>
            simp only [hf]
            exact h
      · simp only [consolidateLoop, if_neg hn]
        exact ih _ _ h

/-- The loop never rewrites a populated non-today entry. -/
theorem consolidateLoop_pres_populated (f : List Content → Except SummErr String)
    (today now : String) (entries : List (String × List Turn)) :
    ∀ mem att d m, d ≠ today → getEntry mem d = some m → trimString m.text ≠ "" →
    getEntry (consolidateLoop f today now entries mem att).1 d = some m := by
  induction entries with
  | nil =>
      intro mem att d m _ h _
      simpa [consolidateLoop] using h
  | cons q rest ih =>
      intro mem att d m hd h hm
      obtain ⟨date, msgs⟩ := q
      by_cases hdate : date = d
      · subst hdate
        have hn : needsSummary mem today date = false := by
          unfold needsSummary
          rw [h]
          simp [hm, hd]
        simp only [consolidateLoop]
        rw [if_neg (by simp [hn])]
        exact ih _ _ _ _ hd h hm
      · by_cases hn : needsSummary mem today date = true
        · simp only [consolidateLoop, if_pos hn]
          cases hf : f (summaryContents mem date msgs) with
          | ok text =>
              simp only [hf]
              exact ih _ _ _ _ hd (by rw [getEntry_setMem_ne _ _ _ _ hdate]; exact h) hm
          | error e =>
              simp only [hf]
              exact h
        · simp only [consolidateLoop, if_neg hn]
          exact ih _ _ _ _ hd h hm

/-- Re-summarization judgement is unaffected by writes at other keys. -/
theorem needsSummary_setMem_ne (mem : Memories) (today k d : String) (v : Memory)
    (h : k ≠ d) : needsSummary (setMem mem k v) today d = needsSummary mem today d := by
  unfold needsSummary
  rw [getEntry_setMem_ne _ _ _ _ h]

/-- The needed-day list is unaffected by writes at keys outside it. -/
theorem neededDates_setMem (rest : List (String × List Turn)) (mem : Memories)
    (today k : String) (v : Memory) (h : ∀ p ∈ rest, p.1 ≠ k) :
    neededDates rest (setMem mem k v) today = neededDates rest mem today := by
  unfold neededDates
  congr 1
  apply List.filter_congr
  intro p hp
  exact needsSummary_setMem_ne mem today k p.1 v (fun hk => (h p hp) hk.symm)

/-- The attempted-day list is always an initial segment of the days the
pass would summarize. -/
theorem consolidateLoop_attempted (f : List Content → Except SummErr String)
    (today now : String) (entries : List (String × List Turn)) :
    ∀ mem att, ((entries.map Prod.fst).Nodup) →
    ∃ k, (consolidateLoop f today now entries mem att).2.1
      = att ++ (neededDates entries mem today).take k := by
  induction entries with
  | nil =>
      intro mem att _
      exact ⟨0, by simp [consolidateLoop, neededDates]⟩
  | cons q rest ih =>
      intro mem att hnd
      obtain ⟨date, msgs⟩ := q
      simp only [List.map_cons] at hnd
      have hnd' : (rest.map Prod.fst).Nodup := (List.nodup_cons.mp hnd).2
      have hdate_notin : date ∉ rest.map Prod.fst := (List.nodup_cons.mp hnd).1
      by_cases hn : needsSummary mem today date = true
      · have hneed : neededDates ((date, msgs) :: rest) mem today
            = date :: neededDates rest mem today := by
          simp [neededDates, hn]
        simp only [consolidateLoop, if_pos hn]
        cases hf : f (summaryContents mem date msgs) with
        | ok text =>
            simp only [hf]
            obtain ⟨k, hk⟩ := ih (setMem mem date ⟨text, now⟩) (att ++ [date]) hnd'
            rw [neededDates_setMem rest mem today date _
              (fun p hp hpd => hdate_notin (hpd ▸ List.mem_map_of_mem Prod.fst hp))] at hk
            refine ⟨k + 1, ?_⟩
            rw [hk, hneed]
            simp [List.take_succ_cons]
        | error e =>
            simp only [hf]
            refine ⟨1, ?_⟩
            rw [hneed]
            simp
      · have hnf : needsSummary mem today date = false := by simpa using hn
        have hneed : neededDates ((date, msgs) :: rest) mem today
            = neededDates rest mem today := by
          simp [neededDates, hnf]
        simp only [consolidateLoop, if_neg hn]
        obtain ⟨k, hk⟩ := ih mem att hnd'
        exact ⟨k, by rw [hk, hneed]⟩

/-- Unfolding equation for generateSummary. -/
theorem generateSummary_eq (f : List Content → Except SummErr String)
    (today now : String) (s : Session) :
    generateSummary f today now s =
      if s.history.isEmpty then ⟨s, [], true⟩
      else
        match consolidateLoop f today now (groupMessagesByDay s.history) s.memories [] with
        | (mem, att, true) =>
            ⟨{ s with memories := mem, history := (getEntry (groupMessagesByDay s.history) today).getD [] }, att, true⟩
        | (mem, att, false) => ⟨{ s with memories := mem }, att, false⟩ := rfl

/-- generateSummary never rewrites a populated non-today memory entry. -/
theorem generateSummary_pres_populated (f : List Content → Except SummErr String)
    (today now : String) (s : Session) (d : String) (m : Memory)
    (hd : d ≠ today) (h : getEntry s.memories d = some m)
    (hm : trimString m.text ≠ "") :
    getEntry (generateSummary f today now s).session.memories d = some m := by
  rw [generateSummary_eq]
  by_cases hemp : s.history.isEmpty
  · rw [if_pos hemp]
    exact h
  · rw [if_neg hemp]
    rcases hr : consolidateLoop f today now (groupMessagesByDay s.history) s.memories []
      with ⟨mem, att, ok⟩
    have hpres := consolidateLoop_pres_populated f today now (groupMessagesByDay s.history)
      s.memories [] d m hd h hm
    rw [hr] at hpres
    cases ok
    · exact hpres
    · exact hpres

/-! ## C1 — post-consolidation invariant -/

/-- C1: when a consolidation pass completes, every remaining history
turn is dated today; every day with at least one pre-consolidation turn
(in particular every day other than today, hence every day strictly
before it) has exactly one memory entry (keys stay unique); and a day
with no turns gains no entry. -/
theorem c1_consolidation (f : List Content → Except SummErr String)
    (today now : String) (s : Session)
    (hnd : (s.memories.map Prod.fst).Nodup)
    (hok : (generateSummary f today now s).ok = true) :
    (∀ t ∈ (generateSummary f today now s).session.history, datePart t.date = today)
    ∧ (((generateSummary f today now s).session.memories.map Prod.fst).Nodup)
    ∧ (∀ d, d ≠ today → (∃ t ∈ s.history, datePart t.date = d) →
        (getEntry (generateSummary f today now s).session.memories d).isSome)
    ∧ (∀ d, (∀ t ∈ s.history, datePart t.date ≠ d) →
        getEntry s.memories d = none →
        getEntry (generateSummary f today now s).session.memories d = none) := by
  rw [generateSummary_eq] at hok ⊢
  by_cases hemp : s.history.isEmpty
  · rw [if_pos hemp] at hok ⊢
    have h0 : s.history = [] := List.isEmpty_iff.mp hemp
    refine ⟨?_, hnd, ?_, ?_⟩
    · show ∀ t ∈ s.history, datePart t.date = today
      rw [h0]
      intro t ht
      simp at ht
    · show ∀ d, d ≠ today → (∃ t ∈ s.history, datePart t.date = d) →
        (getEntry s.memories d).isSome
      rw [h0]
      intro d _ hex
      simp at hex
    · show ∀ d, (∀ t ∈ s.history, datePart t.date ≠ d) → getEntry s.memories d = none →
        getEntry s.memories d = none
      intro d _ h
      exact h
  · rw [if_neg hemp] at hok ⊢
    rcases hr : consolidateLoop f today now (groupMessagesByDay s.history) s.memories []
      with ⟨mem, att, ok⟩
    rw [hr] at hok
    cases ok with
    | false => exact Bool.noConfusion hok
    | true =>
        refine ⟨?_, ?_, ?_, ?_⟩
        · show ∀ t ∈ (getEntry (groupMessagesByDay s.history) today).getD [],
            datePart t.date = today
          cases hgt : getEntry (groupMessagesByDay s.history) today with
          | none =>
              intro t ht
              simp at ht
          | some ms =>
              intro t ht
              simp only [Option.getD_some] at ht
              exact foldGroup_dated s.history [] (by simp) (today, ms)
                (getEntry_mem hgt) t ht
        · show ((mem.map Prod.fst).Nodup)
          have hn := consolidateLoop_nodup f today now (groupMessagesByDay s.history)
            s.memories [] hnd
          rw [hr] at hn
          exact hn
        · show ∀ d, d ≠ today → (∃ t ∈ s.history, datePart t.date = d) →
            (getEntry mem d).isSome
          intro d _ hex
          obtain ⟨t, ht, hdt⟩ := hex
          have h1 : (getEntry (groupMessagesByDay s.history) d).isSome := by
            have h2 := foldGroup_covers s.history [] t ht
            rw [hdt] at h2
            exact h2
          obtain ⟨ms, hms⟩ := Option.isSome_iff_exists.mp h1
          have hcov := consolidateLoop_covers f today now (groupMessagesByDay s.history)
            s.memories [] (by simp [hr]) (d, ms) (getEntry_mem hms)
          rw [hr] at hcov
          exact hcov
        · show ∀ d, (∀ t ∈ s.history, datePart t.date ≠ d) →
            getEntry s.memories d = none → getEntry mem d = none
          intro d hall hnone
          have hgnone : ∀ p ∈ groupMessagesByDay s.history, p.1 ≠ d := by
            intro p hp hpd
            obtain ⟨pk, pv⟩ := p
            have hpd' : pk = d := hpd
            have hsome : (getEntry (groupMessagesByDay s.history) pk).isSome :=
              isSome_getEntry_of_mem hp
            rw [hpd'] at hsome
            rcases foldGroup_isSome_src s.history [] d hsome with hacc | ⟨t, ht, hdt⟩
            · simp [getEntry] at hacc
            · exact hall t ht hdt
          have hres := consolidateLoop_none f today now (groupMessagesByDay s.history)
            s.memories [] d hgnone hnone
          rw [hr] at hres
          exact hres

/-- Witness for c1_consolidation at a concrete one-day session. -/
theorem c1_consolidation_witness :
    (∀ t ∈ (generateSummary (fun _ => Except.ok "S") "02.01.2024" "n"
        ⟨[⟨"u", "a", "01.01.2024, 10:00:00"⟩], [], 0, "x", "y"⟩).session.history,
      datePart t.date = "02.01.2024")
    ∧ (((generateSummary (fun _ => Except.ok "S") "02.01.2024" "n"
        ⟨[⟨"u", "a", "01.01.2024, 10:00:00"⟩], [], 0, "x", "y"⟩).session.memories.map
          Prod.fst).Nodup)
    ∧ (∀ d, d ≠ "02.01.2024" →
        (∃ t ∈ (⟨[⟨"u", "a", "01.01.2024, 10:00:00"⟩], [], 0, "x", "y"⟩ : Session).history,
          datePart t.date = d) →
        (getEntry (generateSummary (fun _ => Except.ok "S") "02.01.2024" "n"
          ⟨[⟨"u", "a", "01.01.2024, 10:00:00"⟩], [], 0, "x", "y"⟩).session.memories d).isSome)
    ∧ (∀ d, (∀ t ∈ (⟨[⟨"u", "a", "01.01.2024, 10:00:00"⟩], [], 0, "x", "y"⟩ : Session).history,
          datePart t.date ≠ d) →
        getEntry (⟨[⟨"u", "a", "01.01.2024, 10:00:00"⟩], [], 0, "x", "y"⟩ : Session).memories d
          = none →
        getEntry (generateSummary (fun _ => Except.ok "S") "02.01.2024" "n"
          ⟨[⟨"u", "a", "01.01.2024, 10:00:00"⟩], [], 0, "x", "y"⟩).session.memories d
          = none) :=
  c1_consolidation (fun _ => Except.ok "S") "02.01.2024" "n"
    ⟨[⟨"u", "a", "01.01.2024, 10:00:00"⟩], [], 0, "x", "y"⟩ (by decide) (by decide)

/-! ## C6 — idempotence of consolidation on memories -/

/-- C6 counterexample: running consolidation twice in succession with
no new turns changes `memories` — the today entry is re-summarized and
stored with the second run's generation timestamp. -/
theorem c6_counterexample :
    (generateSummary (fun _ => Except.ok "S") "01.01.2024" "n2"
        (generateSummary (fun _ => Except.ok "S") "01.01.2024" "n1"
          ⟨[⟨"u", "hi", "01.01.2024, 10:00:00"⟩], [], 0, "x", "y"⟩).session).session.memories
      ≠ (generateSummary (fun _ => Except.ok "S") "01.01.2024" "n1"
          ⟨[⟨"u", "hi", "01.01.2024, 10:00:00"⟩], [], 0, "x", "y"⟩).session.memories := by
  decide

/-- C6 as amended: the second run skips every already-populated
non-today entry — each such entry of the first run's memories is
preserved verbatim by the second run; only the today entry may change
(it is always re-summarized with a fresh generation timestamp). -/
theorem c6_second_run_preserves_nontoday (f₁ f₂ : List Content → Except SummErr String)
    (today now₁ now₂ : String) (s : Session) (d : String) (m : Memory)
    (hd : d ≠ today)
    (h1 : getEntry (generateSummary f₁ today now₁ s).session.memories d = some m)
    (hm : trimString m.text ≠ "") :
    getEntry (generateSummary f₂ today now₂
        (generateSummary f₁ today now₁ s).session).session.memories d = some m :=
  generateSummary_pres_populated f₂ today now₂
    (generateSummary f₁ today now₁ s).session d m hd h1 hm

/-- Witness for c6_second_run_preserves_nontoday at a concrete
two-day session. -/
theorem c6_second_run_preserves_nontoday_witness :
    getEntry (generateSummary (fun _ => Except.ok "S") "02.01.2024" "n2"
        (generateSummary (fun _ => Except.ok "S") "02.01.2024" "n1"
          ⟨[⟨"u", "a", "01.01.2024, 10:00:00"⟩, ⟨"u", "b", "02.01.2024, 11:00:00"⟩],
            [], 0, "x", "y"⟩).session).session.memories "01.01.2024"
      = some ⟨"S", "n1"⟩ :=
  c6_second_run_preserves_nontoday (fun _ => Except.ok "S") (fun _ => Except.ok "S")
    "02.01.2024" "n1" "n2"
    ⟨[⟨"u", "a", "01.01.2024, 10:00:00"⟩, ⟨"u", "b", "02.01.2024, 11:00:00"⟩],
      [], 0, "x", "y"⟩
    "01.01.2024" ⟨"S", "n1"⟩ (by decide) (by decide) (by decide)

/-! ## C7 — per-day failure isolation -/

/-- C7 counterexample: with a failing summarizer, the pass attempts the
first day and then stops — the second day's group needed summarization
and was present in the grouping, yet was never attempted. -/
theorem c7_counterexample :
    ((generateSummary (fun _ => Except.error ⟨"fail"⟩) "03.01.2024" "now"
        ⟨[⟨"u", "a", "01.01.2024, 10:00:00"⟩, ⟨"u", "b", "02.01.2024, 11:00:00"⟩],
          [], 0, "x", "y"⟩).ok = false)
    ∧ (generateSummary (fun _ => Except.error ⟨"fail"⟩) "03.01.2024" "now"
        ⟨[⟨"u", "a", "01.01.2024, 10:00:00"⟩, ⟨"u", "b", "02.01.2024, 11:00:00"⟩],
          [], 0, "x", "y"⟩).attempted = ["01.01.2024"]
    ∧ needsSummary ([] : Memories) "03.01.2024" "02.01.2024" = true
    ∧ ("02.01.2024" ∈ (groupMessagesByDay
        [⟨"u", "a", "01.01.2024, 10:00:00"⟩,
          ⟨"u", "b", "02.01.2024, 11:00:00"⟩]).map Prod.fst)
    ∧ "02.01.2024" ∉ (generateSummary (fun _ => Except.error ⟨"fail"⟩) "03.01.2024" "now"
        ⟨[⟨"u", "a", "01.01.2024, 10:00:00"⟩, ⟨"u", "b", "02.01.2024, 11:00:00"⟩],
          [], 0, "x", "y"⟩).attempted := by decide

/-- C7 as amended: a summarization failure is caught at the
whole-pass level (generateSummary itself completes), but it aborts the
pass: the history is left unreplaced and the attempted days form only
an initial segment of the days the pass would have summarized. -/
theorem c7_failure_aborts_pass (f : List Content → Except SummErr String)
    (today now : String) (s : Session)
    (hfail : (generateSummary f today now s).ok = false) :
    (generateSummary f today now s).session.history = s.history
    ∧ ∃ k, (generateSummary f today now s).attempted
        = (neededDates (groupMessagesByDay s.history) s.memories today).take k := by
  rw [generateSummary_eq] at hfail ⊢
  by_cases hemp : s.history.isEmpty
  · rw [if_pos hemp] at hfail
    simp at hfail
  · rw [if_neg hemp] at hfail ⊢
    rcases hr : consolidateLoop f today now (groupMessagesByDay s.history) s.memories []
      with ⟨mem, att, ok⟩
    rw [hr] at hfail
    cases ok with
    | true => exact Bool.noConfusion hfail
    | false =>
        refine ⟨rfl, ?_⟩
        obtain ⟨k, hk⟩ := consolidateLoop_attempted f today now
          (groupMessagesByDay s.history) s.memories []
          (foldGroup_nodup s.history [] (by simp))
        rw [hr] at hk
        exact ⟨k, by simpa using hk⟩

/-- Witness for c7_failure_aborts_pass at a concrete failing pass. -/
theorem c7_failure_aborts_pass_witness :
    ((generateSummary (fun _ => Except.error ⟨"down"⟩) "05.01.2024" "now"
        ⟨[⟨"u", "a", "03.01.2024, 10:00:00"⟩, ⟨"u", "b", "04.01.2024, 11:00:00"⟩],
          [], 0, "x", "y"⟩).session.history
      = (⟨[⟨"u", "a", "03.01.2024, 10:00:00"⟩, ⟨"u", "b", "04.01.2024, 11:00:00"⟩],
          [], 0, "x", "y"⟩ : Session).history)
    ∧ ∃ k, (generateSummary (fun _ => Except.error ⟨"down"⟩) "05.01.2024" "now"
        ⟨[⟨"u", "a", "03.01.2024, 10:00:00"⟩, ⟨"u", "b", "04.01.2024, 11:00:00"⟩],
          [], 0, "x", "y"⟩).attempted
      = (neededDates (groupMessagesByDay
          [⟨"u", "a", "03.01.2024, 10:00:00"⟩, ⟨"u", "b", "04.01.2024, 11:00:00"⟩])
          ([] : Memories) "05.01.2024").take k :=
  c7_failure_aborts_pass (fun _ => Except.error ⟨"down"⟩) "05.01.2024" "now"
    ⟨[⟨"u", "a", "03.01.2024, 10:00:00"⟩, ⟨"u", "b", "04.01.2024, 11:00:00"⟩],
      [], 0, "x", "y"⟩
    (by decide)

end TelegramAI
